import Mathlib

/-!
Verification of the client-side PDF layout engines of ready-resume-ai.

The repository contains two paginated text renderers built on jsPDF:
  * `generateInterviewPDF` in `src/utils/pdfGenerator.ts`;
  * `generatePDF` inside `src/pages/ResumeGenerator.tsx`.
Both lay text out top-to-bottom with a vertical cursor `y`, starting new
pages when an overflow check fires.  We embed both shallowly: a rendered
document is a list of pages, a page is a list of draw commands (text,
position, font size).  The third-party text measurement
`doc.splitTextToSize` is an external collaborator and is taken as a
function parameter `split : String → ℤ → List String` (text and maximal
width to wrapped lines).  jsPDF draws an array of wrapped lines stacked
downward; both renderers account for that stack at one `lineHeight` per
line, so each wrapped line is modelled as one command at successive
`lineHeight` offsets.  Coordinates are integers: jsPDF uses millimetre
floats, but every constant and every cursor step in the source is an
integer, so ℤ is exact (the one division, `pageWidth / 2` for the centred
title, is exact at the shipped A4 width 210).  Page geometry: both call
sites construct an A4 document (210 × 297 mm) with a hard-coded margin of
20 and line height 7.
-/

namespace ReadyResume

/-- One draw command: text placed at position `(x, y)` with the font size
active at the call.  `bold` records the active font style in the resume
renderer.  `entry` is specification-only instrumentation (it is not part
of the drawn output): it records which question entry of the interview
renderer emitted the command, `none` for the fixed headings. -/
structure Cmd where
  text : String
  x : ℤ
  y : ℤ
  fontSize : ℕ
  bold : Bool
  entry : Option ℕ
  deriving DecidableEq, Inhabited

/-- A rendered page: its draw commands in emission order (the cursor only
moves down, so emission order is top-to-bottom order). -/
abbrev Page := List Cmd

/-- Drawing a list of wrapped lines: jsPDF stacks them downward from `y`,
one per line step; both renderers advance their own cursor by `lineHeight`
per wrapped line. -/
def textLines (ls : List String) (x y lineHeight : ℤ) (fs : ℕ) (bold : Bool)
    (tag : Option ℕ) : List Cmd :=
  match ls with
  | [] => []
  | s :: rest => ⟨s, x, y, fs, bold, tag⟩ :: textLines rest x (y + lineHeight) lineHeight fs bold tag

/-! ## Interview report renderer (`src/utils/pdfGenerator.ts`) -/

/-- One question/answer/feedback record of `InterviewAnalysis`. -/
structure QA where
  question : String
  answer : String
  feedback : String
  deriving DecidableEq, Inhabited

/-- The input of `generateInterviewPDF`. -/
structure InterviewAnalysis where
  questionAnalysis : List QA
  overallAnalysis : String
  deriving DecidableEq, Inhabited

/-- The draw commands of one question entry (the body of the `forEach`
over `analysis.questionAnalysis`) laid out from cursor position `y`,
together with the cursor position after the entry.  Mirrors lines 36-60
of `pdfGenerator.ts`: question label (font 14), question text indented 5
(font 12), answer label, wrapped answer advancing `lineHeight * (n + 1)`,
feedback label, wrapped feedback advancing `lineHeight * (m + 2)`. -/
def qaCmds (pageWidth : ℤ) (split : String → ℤ → List String) (idx : ℕ) (qa : QA)
    (y : ℤ) : List Cmd × ℤ :=
  let margin : ℤ := 20
  let lineHeight : ℤ := 7
  let y1 := y + lineHeight
  let y2 := y1 + lineHeight * 2
  let y3 := y2 + lineHeight
  let answerLines := split qa.answer (pageWidth - margin * 2)
  let y4 := y3 + lineHeight * ((answerLines.length : ℤ) + 1)
  let y5 := y4 + lineHeight
  let feedbackLines := split qa.feedback (pageWidth - margin * 2)
  let y6 := y5 + lineHeight * ((feedbackLines.length : ℤ) + 2)
  (⟨"Question " ++ toString (idx + 1) ++ ":", margin, y, 14, false, some idx⟩ ::
   ⟨qa.question, margin + 5, y1, 12, false, some idx⟩ ::
   ⟨"Your Answer:", margin, y2, 14, false, some idx⟩ ::
   (textLines answerLines (margin + 5) y3 lineHeight 12 false (some idx) ++
    ⟨"Feedback:", margin, y4, 14, false, some idx⟩ ::
    textLines feedbackLines (margin + 5) y5 lineHeight 12 false (some idx)),
   y6)

/-- Renderer state: completed pages, the page being filled, and the
cursor `y` on that page. -/
structure IState where
  done : List Page
  cur : Page
  y : ℤ
  deriving DecidableEq, Inhabited

/-- One iteration of the `forEach` of `generateInterviewPDF`: before each
entry (and only there) the overflow check `y > pageHeight - margin` runs;
if it fires, the current page is closed and the cursor resets to the top
margin.  Then the whole entry is appended to the current page. -/
def interviewStep (pageWidth pageHeight : ℤ) (split : String → ℤ → List String)
    (idx : ℕ) (qa : QA) (st : IState) : IState :=
  let st1 := if st.y > pageHeight - 20 then IState.mk (st.done ++ [st.cur]) [] 20 else st
  let r := qaCmds pageWidth split idx qa st1.y
  ⟨st1.done, st1.cur ++ r.1, r.2⟩

/-- The `forEach` loop over `analysis.questionAnalysis` with its running
entry index. -/
def interviewLoop (pageWidth pageHeight : ℤ) (split : String → ℤ → List String) :
    List QA → ℕ → IState → IState
  | [], _, st => st
  | qa :: rest, idx, st =>
    interviewLoop pageWidth pageHeight split rest (idx + 1)
      (interviewStep pageWidth pageHeight split idx qa st)

/-- State after the report title, the section heading, and the question
loop: the title is centred (drawn at `pageWidth / 2`) at the top margin,
the section heading follows two line heights below, and the loop starts
two further line heights down. -/
def interviewMain (pageWidth pageHeight : ℤ) (split : String → ℤ → List String)
    (a : InterviewAnalysis) : IState :=
  interviewLoop pageWidth pageHeight split a.questionAnalysis 0
    ⟨[], [⟨"Interview Analysis Report", pageWidth / 2, 20, 20, false, none⟩,
          ⟨"Question-by-Question Analysis", 20, 34, 16, false, none⟩], 48⟩

/-- The final page of the interview report: `doc.addPage()` is called
unconditionally, the cursor resets to the top margin, the heading is
drawn there and the wrapped overall analysis two line heights below. -/
def overallPage (pageWidth : ℤ) (split : String → ℤ → List String)
    (a : InterviewAnalysis) : Page :=
  ⟨"Overall Analysis", 20, 20, 16, false, none⟩ ::
    textLines (split a.overallAnalysis (pageWidth - 40)) 20 34 7 12 false none

/-- `generateInterviewPDF` with the page size left as a parameter, the
way the body reads it from `doc.internal.pageSize`.  The output is the
completed pages, the page the loop was filling, and the overall-analysis
page. -/
def interviewCore (pageWidth pageHeight : ℤ) (split : String → ℤ → List String)
    (a : InterviewAnalysis) : List Page :=
  (interviewMain pageWidth pageHeight split a).done ++
    [(interviewMain pageWidth pageHeight split a).cur] ++ [overallPage pageWidth split a]

/-- `generateInterviewPDF` as shipped: `new jsPDF()` yields an A4 portrait
document in millimetres, 210 wide and 297 high. -/
def generateInterviewPDF (split : String → ℤ → List String)
    (a : InterviewAnalysis) : List Page :=
  interviewCore 210 297 split a

/-! ## Resume renderer (`generatePDF` in `src/pages/ResumeGenerator.tsx`) -/

/-- One experience record of `GeneratedResume`. -/
structure Experience where
  company : String
  position : String
  location : String
  dates : String
  description : List String
  deriving DecidableEq, Inhabited

/-- One education record of `GeneratedResume`; `gpa` is an optional field
(`gpa?: string`), drawn only when truthy (present and non-empty). -/
structure Education where
  degree : String
  institution : String
  location : String
  dates : String
  gpa : Option String
  deriving DecidableEq, Inhabited

/-- A skills field as the defensive code sees it at runtime: a string
array, a plain string, or absent (`generatedResume.skills?.technical`
may be `undefined`). -/
inductive SkillField where
  | arr : List String → SkillField
  | str : String → SkillField
  | missing : SkillField
  deriving DecidableEq, Inhabited

/-- `Array.isArray(v) ? v.flatten(', ') : v || fallback`: an array is joined
with `", "` (no fallback, even when empty); a string falls back exactly
when falsy (empty); an absent value falls back. -/
def skillFieldText (fallback : String) : SkillField → String
  | .arr l => String.intercalate ", " l
  | .str s => if s = "" then fallback else s
  | .missing => fallback

/-- One project record of `GeneratedResume`. -/
structure Project where
  name : String
  description : String
  deriving DecidableEq, Inhabited

/-- The input of `generatePDF` (interface `GeneratedResume`); `title` is
declared in the interface but never drawn. -/
structure GeneratedResume where
  name : String
  title : String
  summary : String
  experience : List Experience
  education : List Education
  technical : SkillField
  soft : SkillField
  projects : List Project
  deriving DecidableEq, Inhabited

/-- Resume renderer state: completed pages, current page, cursor `yPos`. -/
structure RState where
  done : List Page
  cur : Page
  y : ℤ
  deriving DecidableEq, Inhabited

/-- `addNewPage`: `doc.addPage(); yPos = margin`. -/
def addNewPage (st : RState) : RState := ⟨st.done ++ [st.cur], [], 20⟩

/-- `addWrappedText(text, y, maxWidth)`: wraps `text` to `maxWidth`,
draws the lines at `x = margin` starting at the `y` argument, and sets
the cursor to `y + splitText.length * lineHeight`.  No overflow check is
performed here. -/
def addWrappedText (split : String → ℤ → List String) (fs : ℕ) (bold : Bool)
    (text : String) (y maxWidth : ℤ) (st : RState) : RState :=
  let ls := split text maxWidth
  ⟨st.done, st.cur ++ textLines ls 20 y 7 fs bold none, y + (ls.length : ℤ) * 7⟩

/-- `willContentFit(contentHeight)`: `yPos + contentHeight <= pageHeight - margin`. -/
def willContentFit (pageHeight contentHeight : ℤ) (st : RState) : Prop :=
  st.y + contentHeight ≤ pageHeight - 20

instance (pageHeight contentHeight : ℤ) (st : RState) :
    Decidable (willContentFit pageHeight contentHeight st) := by
  unfold willContentFit; infer_instance

/-- The recurring pattern `if (!willContentFit(h)) { addNewPage(); }`. -/
def condPage (pageHeight contentHeight : ℤ) (st : RState) : RState :=
  if willContentFit pageHeight contentHeight st then st else addNewPage st

/-- The body of the `forEach` over `generatedResume.experience`: an
estimated-height check (40) before the entry, the position/company line
in bold, the location/dates line, then each description bullet preceded
by a two-line check.  The bullet glyph is the literal (mis-encoded)
`"â€¢ "` prefix of the source. -/
def expEntry (pageWidth pageHeight : ℤ) (split : String → ℤ → List String)
    (st : RState) (e : Experience) : RState :=
  let st := condPage pageHeight 40 st
  let st := addWrappedText split 12 true (e.position ++ " at " ++ e.company)
    (st.y + 5) (pageWidth - 2 * 20) st
  let st := addWrappedText split 12 false (e.location ++ " | " ++ e.dates)
    st.y (pageWidth - 2 * 20) st
  e.description.foldl (fun st d =>
    let st := condPage pageHeight (7 * 2) st
    addWrappedText split 12 false ("â€¢ " ++ d) (st.y + 5) (pageWidth - 2 * 20) st) st

/-- The body of the `forEach` over `generatedResume.education`: an
estimated-height check (25), the degree in bold, the
institution/location/dates line, and a GPA line only when `edu.gpa` is
truthy. -/
def eduEntry (pageWidth pageHeight : ℤ) (split : String → ℤ → List String)
    (st : RState) (e : Education) : RState :=
  let st := condPage pageHeight 25 st
  let st := addWrappedText split 12 true e.degree (st.y + 5) (pageWidth - 2 * 20) st
  let st := addWrappedText split 12 false
    (e.institution ++ " | " ++ e.location ++ " | " ++ e.dates) st.y (pageWidth - 2 * 20) st
  match e.gpa with
  | some g => if g = "" then st else
      addWrappedText split 12 false ("GPA: " ++ g) st.y (pageWidth - 2 * 20) st
  | none => st

/-- The body of the `forEach` over `generatedResume.projects`: an
estimated-height check (40), the project name in bold, then its
description. -/
def projEntry (pageWidth pageHeight : ℤ) (split : String → ℤ → List String)
    (st : RState) (p : Project) : RState :=
  let st := condPage pageHeight 40 st
  let st := addWrappedText split 12 true p.name (st.y + 5) (pageWidth - 2 * 20) st
  addWrappedText split 12 false p.description st.y (pageWidth - 2 * 20) st

/-- The final state of `generatePDF`: name (font 24 bold), summary
(font 12, still bold — the source never resets the style before it),
the EXPERIENCE heading (unchecked), the experience entries, the
EDUCATION / SKILLS / PROJECTS headings each preceded by a
`willContentFit(30)` check, and the corresponding entries.  Every
heading and block is drawn through `addWrappedText` at `yPos + 10` after
a heading gap or `yPos + 5` after a block gap. -/
def resumeMain (pageWidth pageHeight : ℤ) (split : String → ℤ → List String)
    (r : GeneratedResume) : RState :=
  let w := pageWidth - 2 * 20
  let st : RState := ⟨[], [], 20⟩
  let st := addWrappedText split 24 true r.name st.y w st
  let st := addWrappedText split 12 true r.summary (st.y + 10) w st
  let st := addWrappedText split 14 true "EXPERIENCE" (st.y + 10) w st
  let st := r.experience.foldl (expEntry pageWidth pageHeight split) st
  let st := condPage pageHeight 30 st
  let st := addWrappedText split 14 true "EDUCATION" (st.y + 10) w st
  let st := r.education.foldl (eduEntry pageWidth pageHeight split) st
  let st := condPage pageHeight 30 st
  let st := addWrappedText split 14 true "SKILLS" (st.y + 10) w st
  let st := addWrappedText split 12 false
    ("Technical: " ++ skillFieldText "No technical skills listed" r.technical) (st.y + 5) w st
  let st := addWrappedText split 12 false
    ("Soft: " ++ skillFieldText "No soft skills listed" r.soft) (st.y + 5) w st
  let st := condPage pageHeight 30 st
  let st := addWrappedText split 14 true "PROJECTS" (st.y + 10) w st
  r.projects.foldl (projEntry pageWidth pageHeight split) st

/-- `generatePDF` with the page size left as a parameter, the way the
body reads it from `doc.internal.pageSize`: the rendered pages are the
completed ones plus the page being filled when the function returns. -/
def resumeCore (pageWidth pageHeight : ℤ) (split : String → ℤ → List String)
    (r : GeneratedResume) : List Page :=
  (resumeMain pageWidth pageHeight split r).done ++ [(resumeMain pageWidth pageHeight split r).cur]

/-- `generatePDF` as shipped: `new jsPDF({format: 'a4', unit: 'mm'})`,
so the page is 210 × 297 with margin 20 and line height 7. -/
def generatePDF (split : String → ℤ → List String) (r : GeneratedResume) : List Page :=
  resumeCore 210 297 split r

/-! ## Specification-side definitions

Reading-order references, page/entry counting, invariant shapes, and the
concrete inputs used by witnesses and counterexamples. -/

/-- The texts one question entry contributes, in drawing order: the
numbered label, the question, the answer label, the wrapped answer, the
feedback label, the wrapped feedback. -/
def qaTexts (pageWidth : ℤ) (split : String → ℤ → List String) (idx : ℕ)
    (qa : QA) : List String :=
  ["Question " ++ toString (idx + 1) ++ ":", qa.question, "Your Answer:"] ++
    split qa.answer (pageWidth - 20 * 2) ++
    "Feedback:" :: split qa.feedback (pageWidth - 20 * 2)

/-- The texts of a question list starting at entry index `idx`. -/
def allQATexts (pageWidth : ℤ) (split : String → ℤ → List String) :
    List QA → ℕ → List String
  | [], _ => []
  | qa :: rest, idx => qaTexts pageWidth split idx qa ++ allQATexts pageWidth split rest (idx + 1)

/-- The full reading order of the interview report: title, section
heading, all question entries, then the overall analysis. -/
def interviewTexts (pageWidth : ℤ) (split : String → ℤ → List String)
    (a : InterviewAnalysis) : List String :=
  "Interview Analysis Report" :: "Question-by-Question Analysis" ::
    (allQATexts pageWidth split a.questionAnalysis 0 ++
     "Overall Analysis" :: split a.overallAnalysis (pageWidth - 40))

/-- The texts one experience entry contributes, in drawing order. -/
def expTexts (pageWidth : ℤ) (split : String → ℤ → List String)
    (e : Experience) : List String :=
  split (e.position ++ " at " ++ e.company) (pageWidth - 2 * 20) ++
    split (e.location ++ " | " ++ e.dates) (pageWidth - 2 * 20) ++
    (e.description.map (fun d => split ("â€¢ " ++ d) (pageWidth - 2 * 20))).flatten

/-- The texts one education entry contributes, in drawing order. -/
def eduTexts (pageWidth : ℤ) (split : String → ℤ → List String)
    (e : Education) : List String :=
  split e.degree (pageWidth - 2 * 20) ++
    split (e.institution ++ " | " ++ e.location ++ " | " ++ e.dates) (pageWidth - 2 * 20) ++
    (match e.gpa with
     | some g => if g = "" then [] else split ("GPA: " ++ g) (pageWidth - 2 * 20)
     | none => [])

/-- The texts one project entry contributes, in drawing order. -/
def projTexts (pageWidth : ℤ) (split : String → ℤ → List String)
    (p : Project) : List String :=
  split p.name (pageWidth - 2 * 20) ++ split p.description (pageWidth - 2 * 20)

/-- The full reading order of the resume: name, summary, and the four
titled sections with their entries. -/
def resumeTexts (pageWidth : ℤ) (split : String → ℤ → List String)
    (r : GeneratedResume) : List String :=
  split r.name (pageWidth - 2 * 20) ++
    split r.summary (pageWidth - 2 * 20) ++
    split "EXPERIENCE" (pageWidth - 2 * 20) ++
    (r.experience.map (expTexts pageWidth split)).flatten ++
    split "EDUCATION" (pageWidth - 2 * 20) ++
    (r.education.map (eduTexts pageWidth split)).flatten ++
    split "SKILLS" (pageWidth - 2 * 20) ++
    split ("Technical: " ++ skillFieldText "No technical skills listed" r.technical)
      (pageWidth - 2 * 20) ++
    split ("Soft: " ++ skillFieldText "No soft skills listed" r.soft) (pageWidth - 2 * 20) ++
    split "PROJECTS" (pageWidth - 2 * 20) ++
    (r.projects.map (projTexts pageWidth split)).flatten

/-- All texts accumulated so far by the interview renderer. -/
def textsOfI (st : IState) : List String := (st.done.flatten ++ st.cur).map Cmd.text

/-- All texts accumulated so far by the resume renderer. -/
def textsOfR (st : RState) : List String := (st.done.flatten ++ st.cur).map Cmd.text

/-- How many pages contain at least one draw command of question entry `i`. -/
def pagesWithEntry (i : ℕ) (pages : List Page) : ℕ :=
  (pages.filter (fun p => p.any (fun c => c.entry == some i))).length

/-- A command predicate holding of every command accumulated so far. -/
def IAll (Q : Cmd → Prop) (st : IState) : Prop :=
  (∀ p ∈ st.done, ∀ c ∈ p, Q c) ∧ ∀ c ∈ st.cur, Q c

/-- A command predicate holding of every command accumulated so far. -/
def RAll (Q : Cmd → Prop) (st : RState) : Prop :=
  (∀ p ∈ st.done, ∀ c ∈ p, Q c) ∧ ∀ c ∈ st.cur, Q c

/-- Strict top-to-bottom order between two commands. -/
def yLT (c d : Cmd) : Prop := c.y < d.y

/-- Monotonicity invariant of the interview renderer: every page is
strictly top-to-bottom, and everything on the open page lies strictly
above the cursor. -/
def IMono (st : IState) : Prop :=
  (∀ p ∈ st.done, p.Pairwise yLT) ∧ st.cur.Pairwise yLT ∧ ∀ c ∈ st.cur, c.y < st.y

/-- Monotonicity invariant of the resume renderer. -/
def RMono (st : RState) : Prop :=
  (∀ p ∈ st.done, p.Pairwise yLT) ∧ st.cur.Pairwise yLT ∧ ∀ c ∈ st.cur, c.y < st.y

/-! ### Concrete instances for witnesses and counterexamples -/

/-- A text-measurement instance where every string fits on one line, as
jsPDF's `splitTextToSize` behaves on short inputs. -/
def oneLineSplit : String → ℤ → List String := fun s _ => [s]

/-- Splitting a character list at newline characters. -/
def splitLinesAux : List Char → List Char → List String
  | [], acc => [String.mk acc.reverse]
  | c :: cs, acc =>
    if c = '\n' then String.mk acc.reverse :: splitLinesAux cs []
    else splitLinesAux cs (c :: acc)

/-- A text-measurement instance that wraps exactly at newline characters,
as jsPDF's `splitTextToSize` behaves when every line fits the width. -/
def newlineSplit : String → ℤ → List String := fun s _ => splitLinesAux s.data []

/-- Four short question entries: enough to walk the cursor past the
bottom margin inside the question loop. -/
def cexAnalysis4 : InterviewAnalysis := ⟨List.replicate 4 ⟨"q", "a", "f"⟩, "o"⟩

/-- The empty interview document. -/
def emptyAnalysis : InterviewAnalysis := ⟨[], ""⟩

/-- The empty resume document: empty strings, no entries, skills absent. -/
def emptyResume : GeneratedResume := ⟨"", "", "", [], [], .missing, .missing, []⟩

/-- A resume whose summary wraps to 36 lines, pushing the cursor to 289
before the EXPERIENCE heading, with one experience entry following. -/
def cexResumeC4 : GeneratedResume :=
  ⟨"N", "", String.intercalate "\n" (List.replicate 36 "x"),
   [⟨"C", "P", "L", "D", ["d"]⟩], [], .arr ["t"], .arr ["s"], []⟩

/-- A resume with one experience entry carrying two one-line description
blocks, exposing the inter-block cursor advance. -/
def cexResumeC7 : GeneratedResume :=
  ⟨"n", "", "s", [⟨"C", "P", "L", "D", ["d1", "d2"]⟩], [], .arr ["t"], .arr ["s"], []⟩

/-! ## Helper lemmas: wrapped-line stacks -/

theorem textLines_map_text (ls : List String) (x y lh : ℤ) (fs : ℕ) (b : Bool)
    (t : Option ℕ) : (textLines ls x y lh fs b t).map Cmd.text = ls := by
  induction ls generalizing y with
  | nil => rfl
  | cons s rest ih => simp [textLines, ih]

theorem textLines_length (ls : List String) (x y lh : ℤ) (fs : ℕ) (b : Bool)
    (t : Option ℕ) : (textLines ls x y lh fs b t).length = ls.length := by
  induction ls generalizing y with
  | nil => rfl
  | cons s rest ih => simp [textLines, ih]

theorem textLines_fontSize (ls : List String) (x y lh : ℤ) (fs : ℕ) (b : Bool)
    (t : Option ℕ) : ∀ c ∈ textLines ls x y lh fs b t, c.fontSize = fs := by
  induction ls generalizing y with
  | nil => intro c hc; simp [textLines] at hc
  | cons s rest ih =>
    intro c hc
    rcases (by simpa [textLines] using hc : c = _ ∨ c ∈ textLines rest x (y + lh) lh fs b t) with
      h | h
    · simp [h]
    · exact ih (y + lh) c h

theorem textLines_entry (ls : List String) (x y lh : ℤ) (fs : ℕ) (b : Bool)
    (t : Option ℕ) : ∀ c ∈ textLines ls x y lh fs b t, c.entry = t := by
  induction ls generalizing y with
  | nil => intro c hc; simp [textLines] at hc
  | cons s rest ih =>
    intro c hc
    rcases (by simpa [textLines] using hc : c = _ ∨ c ∈ textLines rest x (y + lh) lh fs b t) with
      h | h
    · simp [h]
    · exact ih (y + lh) c h

theorem textLines_bounds (ls : List String) (x y : ℤ) (fs : ℕ) (b : Bool)
    (t : Option ℕ) : ∀ c ∈ textLines ls x y 7 fs b t,
      y ≤ c.y ∧ c.y + 7 ≤ y + 7 * ls.length := by
  induction ls generalizing y with
  | nil => intro c hc; simp [textLines] at hc
  | cons s rest ih =>
    intro c hc
    rcases (by simpa [textLines] using hc : c = _ ∨ c ∈ textLines rest x (y + 7) 7 fs b t) with
      h | h
    · subst h; simp
    · have := ih (y + 7) c h
      simp only [List.length_cons]
      push_cast
      push_cast at this
      omega

theorem textLines_pairwise (ls : List String) (x y : ℤ) (fs : ℕ) (b : Bool)
    (t : Option ℕ) : (textLines ls x y 7 fs b t).Pairwise yLT := by
  induction ls generalizing y with
  | nil => exact List.Pairwise.nil
  | cons s rest ih =>
    refine List.Pairwise.cons ?_ (ih (y + 7))
    intro c hc
    have := (textLines_bounds rest x (y + 7) fs b t c hc).1
    simp only [yLT]
    omega

/-! ## Helper lemmas: one question entry -/

theorem qaCmds_texts (pw : ℤ) (split : String → ℤ → List String) (idx : ℕ) (qa : QA)
    (y : ℤ) : ((qaCmds pw split idx qa y).1).map Cmd.text = qaTexts pw split idx qa := by
  simp [qaCmds, qaTexts, textLines_map_text]

theorem qaCmds_snd (pw : ℤ) (split : String → ℤ → List String) (idx : ℕ) (qa : QA)
    (y : ℤ) : (qaCmds pw split idx qa y).2 =
      y + 56 + 7 * ((split qa.answer (pw - 20 * 2)).length : ℤ) +
        7 * ((split qa.feedback (pw - 20 * 2)).length : ℤ) := by
  simp only [qaCmds]
  ring

theorem qaCmds_mem_bounds (pw : ℤ) (split : String → ℤ → List String) (idx : ℕ)
    (qa : QA) (y : ℤ) : ∀ c ∈ (qaCmds pw split idx qa y).1,
      y ≤ c.y ∧ c.y + 7 ≤ (qaCmds pw split idx qa y).2 := by
  intro c hc
  rw [qaCmds_snd]
  simp only [qaCmds, List.mem_cons, List.mem_append] at hc
  rcases hc with h | h | h | h | h | h
  · subst h; dsimp only; constructor <;> omega
  · subst h; dsimp only; constructor <;> omega
  · subst h; dsimp only; constructor <;> omega
  · have := textLines_bounds _ _ _ _ _ _ c h
    constructor <;> omega
  · subst h; dsimp only; constructor <;> omega
  · have := textLines_bounds _ _ _ _ _ _ c h
    constructor <;> omega

theorem qaCmds_entry (pw : ℤ) (split : String → ℤ → List String) (idx : ℕ) (qa : QA)
    (y : ℤ) : ∀ c ∈ (qaCmds pw split idx qa y).1, c.entry = some idx := by
  intro c hc
  simp only [qaCmds, List.mem_cons, List.mem_append] at hc
  rcases hc with h | h | h | h | h | h
  · subst h; rfl
  · subst h; rfl
  · subst h; rfl
  · exact textLines_entry _ _ _ _ _ _ _ c h
  · subst h; rfl
  · exact textLines_entry _ _ _ _ _ _ _ c h

theorem qaCmds_pairwise (pw : ℤ) (split : String → ℤ → List String) (idx : ℕ) (qa : QA)
    (y : ℤ) : ((qaCmds pw split idx qa y).1).Pairwise yLT := by
  simp only [qaCmds]
  refine List.Pairwise.cons ?_ (List.Pairwise.cons ?_ (List.Pairwise.cons ?_ ?_))
  · intro c hc
    simp only [List.mem_cons, List.mem_append] at hc
    rcases hc with h | h | h | h | h
    · subst h; dsimp only [yLT]; omega
    · subst h; dsimp only [yLT]; omega
    · have := (textLines_bounds _ _ _ _ _ _ c h).1; dsimp only [yLT]; omega
    · subst h; dsimp only [yLT]; omega
    · have := (textLines_bounds _ _ _ _ _ _ c h).1; dsimp only [yLT]; omega
  · intro c hc
    simp only [List.mem_cons, List.mem_append] at hc
    rcases hc with h | h | h | h
    · subst h; dsimp only [yLT]; omega
    · have := (textLines_bounds _ _ _ _ _ _ c h).1; dsimp only [yLT]; omega
    · subst h; dsimp only [yLT]; omega
    · have := (textLines_bounds _ _ _ _ _ _ c h).1; dsimp only [yLT]; omega
  · intro c hc
    simp only [List.mem_cons, List.mem_append] at hc
    rcases hc with h | h | h
    · have := (textLines_bounds _ _ _ _ _ _ c h).1; dsimp only [yLT]; omega
    · subst h; dsimp only [yLT]; omega
    · have := (textLines_bounds _ _ _ _ _ _ c h).1; dsimp only [yLT]; omega
  · rw [List.pairwise_append]
    refine ⟨textLines_pairwise _ _ _ _ _ _, ?_, ?_⟩
    · refine List.Pairwise.cons ?_ (textLines_pairwise _ _ _ _ _ _)
      intro c hc
      have := (textLines_bounds _ _ _ _ _ _ c hc).1
      dsimp only [yLT]; omega
    · intro a ha b hb
      have h1 := textLines_bounds _ _ _ _ _ _ a ha
      simp only [List.mem_cons] at hb
      rcases hb with h | h
      · subst h; dsimp only [yLT]; omega
      · have h2 := (textLines_bounds _ _ _ _ _ _ b h).1
        dsimp only [yLT]; omega

theorem qaCmds_snd_ge (pw : ℤ) (split : String → ℤ → List String) (idx : ℕ) (qa : QA)
    (y : ℤ) : y ≤ (qaCmds pw split idx qa y).2 := by
  rw [qaCmds_snd]; omega

theorem qaCmds_any_self (pw : ℤ) (split : String → ℤ → List String) (idx : ℕ) (qa : QA)
    (y : ℤ) : ((qaCmds pw split idx qa y).1).any (fun c => c.entry == some idx) = true := by
  simp only [List.any_eq_true]
  refine ⟨⟨"Question " ++ toString (idx + 1) ++ ":", 20, y, 14, false, some idx⟩, ?_, ?_⟩
  · simp [qaCmds]
  · simp

theorem qaCmds_any_ne (pw : ℤ) (split : String → ℤ → List String) (idx : ℕ) (qa : QA)
    (y : ℤ) (i : ℕ) (h : i ≠ idx) :
    ((qaCmds pw split idx qa y).1).any (fun c => c.entry == some i) = false := by
  simp only [List.any_eq_false]
  intro c hc
  have hc' := qaCmds_entry pw split idx qa y c hc
  simp [hc']
  omega

/-! ## Helper lemmas: the interview loop -/

theorem interviewStep_pos (pw ph : ℤ) (split : String → ℤ → List String) (idx : ℕ)
    (qa : QA) (st : IState) (hy : st.y > ph - 20) :
    interviewStep pw ph split idx qa st =
      ⟨st.done ++ [st.cur], (qaCmds pw split idx qa 20).1, (qaCmds pw split idx qa 20).2⟩ := by
  simp [interviewStep, hy]

theorem interviewStep_neg (pw ph : ℤ) (split : String → ℤ → List String) (idx : ℕ)
    (qa : QA) (st : IState) (hy : ¬st.y > ph - 20) :
    interviewStep pw ph split idx qa st =
      ⟨st.done, st.cur ++ (qaCmds pw split idx qa st.y).1, (qaCmds pw split idx qa st.y).2⟩ := by
  simp [interviewStep, hy]

theorem pagesWithEntry_append (i : ℕ) (ps qs : List Page) :
    pagesWithEntry i (ps ++ qs) = pagesWithEntry i ps + pagesWithEntry i qs := by
  simp [pagesWithEntry, List.filter_append]

theorem pagesWithEntry_single (i : ℕ) (p : Page) :
    pagesWithEntry i [p] = if p.any (fun c => c.entry == some i) then 1 else 0 := by
  simp only [pagesWithEntry, List.filter_singleton]
  cases hb : p.any (fun c => c.entry == some i) <;> simp [hb]

theorem pagesWithEntry_eq_zero (i : ℕ) (ps : List Page) :
    pagesWithEntry i ps = 0 ↔
      ∀ p ∈ ps, p.any (fun c => c.entry == some i) = false := by
  simp [pagesWithEntry, List.length_eq_zero, List.filter_eq_nil_iff, Bool.not_eq_true]

theorem textsOfI_step (pw ph : ℤ) (split : String → ℤ → List String) (idx : ℕ)
    (qa : QA) (st : IState) :
    textsOfI (interviewStep pw ph split idx qa st) =
      textsOfI st ++ qaTexts pw split idx qa := by
  by_cases hy : st.y > ph - 20
  · rw [interviewStep_pos pw ph split idx qa st hy]
    simp [textsOfI, qaCmds_texts, List.append_assoc]
  · rw [interviewStep_neg pw ph split idx qa st hy]
    simp [textsOfI, qaCmds_texts, List.append_assoc]

theorem interviewLoop_texts (pw ph : ℤ) (split : String → ℤ → List String) :
    ∀ (l : List QA) (idx : ℕ) (st : IState),
      textsOfI (interviewLoop pw ph split l idx st) =
        textsOfI st ++ allQATexts pw split l idx := by
  intro l
  induction l with
  | nil => intro idx st; simp [interviewLoop, allQATexts]
  | cons qa rest ih =>
    intro idx st
    rw [interviewLoop, allQATexts, ih, textsOfI_step, List.append_assoc]

theorem interviewStep_low (pw ph : ℤ) (split : String → ℤ → List String) (idx : ℕ)
    (qa : QA) (st : IState) (h : IAll (fun c => 20 ≤ c.y) st) (hy : 20 ≤ st.y) :
    IAll (fun c => 20 ≤ c.y) (interviewStep pw ph split idx qa st) ∧
      20 ≤ (interviewStep pw ph split idx qa st).y := by
  by_cases hcond : st.y > ph - 20
  · rw [interviewStep_pos pw ph split idx qa st hcond]
    refine ⟨⟨?_, ?_⟩, ?_⟩
    · intro p hp c hc
      rcases List.mem_append.1 hp with h' | h'
      · exact h.1 p h' c hc
      · rcases List.mem_singleton.1 h' with rfl
        exact h.2 c hc
    · intro c hc
      have := (qaCmds_mem_bounds pw split idx qa 20 c hc).1
      omega
    · have := qaCmds_snd_ge pw split idx qa 20
      dsimp only
      omega
  · rw [interviewStep_neg pw ph split idx qa st hcond]
    refine ⟨⟨h.1, ?_⟩, ?_⟩
    · intro c hc
      rcases List.mem_append.1 hc with h' | h'
      · exact h.2 c h'
      · have := (qaCmds_mem_bounds pw split idx qa st.y c h').1
        omega
    · have := qaCmds_snd_ge pw split idx qa st.y
      dsimp only
      omega

theorem interviewLoop_low (pw ph : ℤ) (split : String → ℤ → List String) :
    ∀ (l : List QA) (idx : ℕ) (st : IState),
      IAll (fun c => 20 ≤ c.y) st → 20 ≤ st.y →
      IAll (fun c => 20 ≤ c.y) (interviewLoop pw ph split l idx st) ∧
        20 ≤ (interviewLoop pw ph split l idx st).y := by
  intro l
  induction l with
  | nil => intro idx st h hy; rw [interviewLoop]; exact ⟨h, hy⟩
  | cons qa rest ih =>
    intro idx st h hy
    rw [interviewLoop]
    have := interviewStep_low pw ph split idx qa st h hy
    exact ih (idx + 1) _ this.1 this.2

theorem interviewStep_pagesWith (pw ph : ℤ) (split : String → ℤ → List String) (idx : ℕ)
    (qa : QA) (st : IState)
    (h0 : ∀ j, idx ≤ j → pagesWithEntry j (st.done ++ [st.cur]) = 0) (i : ℕ) :
    pagesWithEntry i
        ((interviewStep pw ph split idx qa st).done ++
          [(interviewStep pw ph split idx qa st).cur]) =
      if i = idx then 1 else pagesWithEntry i (st.done ++ [st.cur]) := by
  have hidx := h0 idx le_rfl
  rw [pagesWithEntry_append, pagesWithEntry_single] at hidx
  have hcurfalse : st.cur.any (fun c => c.entry == some idx) = false := by
    cases hc : st.cur.any (fun c => c.entry == some idx)
    · rfl
    · rw [hc] at hidx; simp at hidx
  have hdone0 : pagesWithEntry idx st.done = 0 := by
    rw [hcurfalse] at hidx; simpa using hidx
  by_cases hy : st.y > ph - 20
  · rw [interviewStep_pos pw ph split idx qa st hy]
    dsimp only
    rw [pagesWithEntry_append, pagesWithEntry_single]
    by_cases hi : i = idx
    · subst hi
      rw [qaCmds_any_self, h0 i le_rfl, if_pos rfl]
      simp
    · rw [qaCmds_any_ne pw split idx qa 20 i hi, if_neg hi]
      simp
  · rw [interviewStep_neg pw ph split idx qa st hy]
    dsimp only
    rw [pagesWithEntry_append, pagesWithEntry_single, List.any_append]
    by_cases hi : i = idx
    · subst hi
      rw [qaCmds_any_self, hcurfalse, hdone0, if_pos rfl]
      simp
    · rw [qaCmds_any_ne pw split idx qa st.y i hi, if_neg hi,
        pagesWithEntry_append, pagesWithEntry_single]
      simp

theorem interviewLoop_pagesWith (pw ph : ℤ) (split : String → ℤ → List String) :
    ∀ (l : List QA) (idx : ℕ) (st : IState),
      (∀ j, idx ≤ j → pagesWithEntry j (st.done ++ [st.cur]) = 0) →
      ∀ i, pagesWithEntry i
          ((interviewLoop pw ph split l idx st).done ++
            [(interviewLoop pw ph split l idx st).cur]) =
        if idx ≤ i ∧ i < idx + l.length then 1
        else pagesWithEntry i (st.done ++ [st.cur]) := by
  intro l
  induction l with
  | nil =>
    intro idx st h0 i
    rw [interviewLoop, if_neg (by simp)]
  | cons qa rest ih =>
    intro idx st h0 i
    rw [interviewLoop]
    have hstep := interviewStep_pagesWith pw ph split idx qa st h0
    have h0' : ∀ j, idx + 1 ≤ j →
        pagesWithEntry j ((interviewStep pw ph split idx qa st).done ++
          [(interviewStep pw ph split idx qa st).cur]) = 0 := by
      intro j hj
      rw [hstep j, if_neg (by omega)]
      exact h0 j (by omega)
    rw [ih (idx + 1) _ h0' i]
    by_cases h1 : idx + 1 ≤ i ∧ i < idx + 1 + rest.length
    · rw [if_pos h1, if_pos (by simp only [List.length_cons]; omega)]
    · rw [if_neg h1, hstep i]
      by_cases h2 : i = idx
      · subst h2
        rw [if_pos rfl, if_pos (by simp only [List.length_cons]; omega)]
      · rw [if_neg h2, if_neg (by simp only [List.length_cons]; omega)]

theorem interviewStep_mono (pw ph : ℤ) (split : String → ℤ → List String) (idx : ℕ)
    (qa : QA) (st : IState) (h : IMono st) :
    IMono (interviewStep pw ph split idx qa st) := by
  obtain ⟨hdone, hcur, hlt⟩ := h
  by_cases hy : st.y > ph - 20
  · rw [interviewStep_pos pw ph split idx qa st hy]
    refine ⟨?_, ?_, ?_⟩
    · intro p hp
      rcases List.mem_append.1 hp with h' | h'
      · exact hdone p h'
      · rcases List.mem_singleton.1 h' with rfl
        exact hcur
    · exact qaCmds_pairwise pw split idx qa 20
    · intro c hc
      have := (qaCmds_mem_bounds pw split idx qa 20 c hc).2
      dsimp only
      omega
  · rw [interviewStep_neg pw ph split idx qa st hy]
    refine ⟨hdone, ?_, ?_⟩
    · rw [List.pairwise_append]
      refine ⟨hcur, qaCmds_pairwise pw split idx qa st.y, ?_⟩
      intro a ha b hb
      have hb' := (qaCmds_mem_bounds pw split idx qa st.y b hb).1
      have := hlt a ha
      simp only [yLT]
      omega
    · intro c hc
      rcases List.mem_append.1 hc with h' | h'
      · have := hlt c h'
        have hge := qaCmds_snd_ge pw split idx qa st.y
        dsimp only
        omega
      · have := (qaCmds_mem_bounds pw split idx qa st.y c h').2
        dsimp only
        omega

theorem interviewLoop_mono (pw ph : ℤ) (split : String → ℤ → List String) :
    ∀ (l : List QA) (idx : ℕ) (st : IState),
      IMono st → IMono (interviewLoop pw ph split l idx st) := by
  intro l
  induction l with
  | nil => intro idx st h; rw [interviewLoop]; exact h
  | cons qa rest ih =>
    intro idx st h
    rw [interviewLoop]
    exact ih (idx + 1) _ (interviewStep_mono pw ph split idx qa st h)

/-! ## Helper lemmas: the resume renderer -/

theorem addWrappedText_texts (split : String → ℤ → List String) (fs : ℕ) (b : Bool)
    (text : String) (y w : ℤ) (st : RState) :
    textsOfR (addWrappedText split fs b text y w st) = textsOfR st ++ split text w := by
  simp [addWrappedText, textsOfR, textLines_map_text, List.append_assoc]

theorem addNewPage_texts (st : RState) : textsOfR (addNewPage st) = textsOfR st := by
  simp [addNewPage, textsOfR]

theorem condPage_texts (ph h : ℤ) (st : RState) :
    textsOfR (condPage ph h st) = textsOfR st := by
  unfold condPage
  split
  · rfl
  · exact addNewPage_texts st

theorem foldl_texts {α : Type} (f : RState → α → RState) (g : α → List String)
    (hf : ∀ st a, textsOfR (f st a) = textsOfR st ++ g a) :
    ∀ (l : List α) (st : RState),
      textsOfR (l.foldl f st) = textsOfR st ++ (l.map g).flatten := by
  intro l
  induction l with
  | nil => intro st; simp
  | cons a rest ih => intro st; simp [List.foldl_cons, ih, hf, List.append_assoc]

theorem foldl_inv {α : Type} (P : RState → Prop) (f : RState → α → RState)
    (hf : ∀ st a, P st → P (f st a)) :
    ∀ (l : List α) (st : RState), P st → P (l.foldl f st) := by
  intro l
  induction l with
  | nil => intro st h; simpa using h
  | cons a rest ih => intro st h; simpa using ih (f st a) (hf st a h)

theorem expEntry_texts (pw ph : ℤ) (split : String → ℤ → List String) (st : RState)
    (e : Experience) :
    textsOfR (expEntry pw ph split st e) = textsOfR st ++ expTexts pw split e := by
  have hdesc := foldl_texts
    (fun st d =>
      let st := condPage ph (7 * 2) st
      addWrappedText split 12 false ("â€¢ " ++ d) (st.y + 5) (pw - 2 * 20) st)
    (fun d => split ("â€¢ " ++ d) (pw - 2 * 20))
    (fun st a => by
      simp only []
      rw [addWrappedText_texts, condPage_texts])
  simp only [expEntry]
  rw [hdesc, addWrappedText_texts, addWrappedText_texts, condPage_texts, expTexts]
  simp [List.append_assoc]

theorem eduEntry_texts (pw ph : ℤ) (split : String → ℤ → List String) (st : RState)
    (e : Education) :
    textsOfR (eduEntry pw ph split st e) = textsOfR st ++ eduTexts pw split e := by
  simp only [eduEntry, eduTexts]
  cases hg : e.gpa with
  | none =>
    rw [addWrappedText_texts, addWrappedText_texts, condPage_texts]
    simp [List.append_assoc]
  | some g =>
    dsimp only
    by_cases hge : g = ""
    · rw [if_pos hge, if_pos hge, addWrappedText_texts, addWrappedText_texts, condPage_texts]
      simp [List.append_assoc]
    · rw [if_neg hge, if_neg hge, addWrappedText_texts, addWrappedText_texts,
        addWrappedText_texts, condPage_texts]
      simp [List.append_assoc]

theorem projEntry_texts (pw ph : ℤ) (split : String → ℤ → List String) (st : RState)
    (p : Project) :
    textsOfR (projEntry pw ph split st p) = textsOfR st ++ projTexts pw split p := by
  simp only [projEntry, projTexts]
  rw [addWrappedText_texts, addWrappedText_texts, condPage_texts]
  simp [List.append_assoc]

theorem resumeMain_texts (pw ph : ℤ) (split : String → ℤ → List String)
    (r : GeneratedResume) :
    textsOfR (resumeMain pw ph split r) = resumeTexts pw split r := by
  have hexp := foldl_texts (expEntry pw ph split) (expTexts pw split)
    (expEntry_texts pw ph split)
  have hedu := foldl_texts (eduEntry pw ph split) (eduTexts pw split)
    (eduEntry_texts pw ph split)
  have hproj := foldl_texts (projEntry pw ph split) (projTexts pw split)
    (projEntry_texts pw ph split)
  simp only [resumeMain]
  rw [hproj, addWrappedText_texts, condPage_texts, addWrappedText_texts,
    addWrappedText_texts, addWrappedText_texts, condPage_texts, hedu,
    addWrappedText_texts, condPage_texts, hexp, addWrappedText_texts,
    addWrappedText_texts, addWrappedText_texts]
  simp [textsOfR, resumeTexts, List.append_assoc]

theorem addWrappedText_low (split : String → ℤ → List String) (fs : ℕ) (b : Bool)
    (text : String) (y w : ℤ) (st : RState)
    (h : RAll (fun c => 20 ≤ c.y) st ∧ 20 ≤ st.y) (hy : st.y ≤ y) :
    RAll (fun c => 20 ≤ c.y) (addWrappedText split fs b text y w st) ∧
      20 ≤ (addWrappedText split fs b text y w st).y := by
  obtain ⟨⟨hdone, hcur⟩, hsty⟩ := h
  refine ⟨⟨hdone, ?_⟩, ?_⟩
  · intro c hc
    rcases List.mem_append.1 hc with h' | h'
    · exact hcur c h'
    · have := (textLines_bounds _ _ _ _ _ _ c h').1
      omega
  · show 20 ≤ y + ((split text w).length : ℤ) * 7
    omega

theorem addNewPage_low (st : RState) (h : RAll (fun c => 20 ≤ c.y) st ∧ 20 ≤ st.y) :
    RAll (fun c => 20 ≤ c.y) (addNewPage st) ∧ 20 ≤ (addNewPage st).y := by
  obtain ⟨⟨hdone, hcur⟩, _⟩ := h
  refine ⟨⟨?_, ?_⟩, le_refl 20⟩
  · intro p hp
    rcases List.mem_append.1 hp with h' | h'
    · exact hdone p h'
    · rcases List.mem_singleton.1 h' with rfl
      exact hcur
  · intro c hc
    simp [addNewPage] at hc

theorem condPage_low (ph hgt : ℤ) (st : RState)
    (h : RAll (fun c => 20 ≤ c.y) st ∧ 20 ≤ st.y) :
    RAll (fun c => 20 ≤ c.y) (condPage ph hgt st) ∧ 20 ≤ (condPage ph hgt st).y := by
  unfold condPage
  split
  · exact h
  · exact addNewPage_low st h

theorem expEntry_low (pw ph : ℤ) (split : String → ℤ → List String) (st : RState)
    (e : Experience) (h : RAll (fun c => 20 ≤ c.y) st ∧ 20 ≤ st.y) :
    RAll (fun c => 20 ≤ c.y) (expEntry pw ph split st e) ∧
      20 ≤ (expEntry pw ph split st e).y := by
  simp only [expEntry]
  refine foldl_inv (fun st => RAll (fun c => 20 ≤ c.y) st ∧ 20 ≤ st.y) _ ?_ _ _ ?_
  · intro st d hd
    refine addWrappedText_low split 12 false _ _ _ _ (condPage_low ph (7 * 2) st hd) ?_
    omega
  · refine addWrappedText_low split 12 false _ _ _ _ ?_ le_rfl
    refine addWrappedText_low split 12 true _ _ _ _ (condPage_low ph 40 st h) ?_
    omega

theorem eduEntry_low (pw ph : ℤ) (split : String → ℤ → List String) (st : RState)
    (e : Education) (h : RAll (fun c => 20 ≤ c.y) st ∧ 20 ≤ st.y) :
    RAll (fun c => 20 ≤ c.y) (eduEntry pw ph split st e) ∧
      20 ≤ (eduEntry pw ph split st e).y := by
  simp only [eduEntry]
  cases hgpa : e.gpa with
  | none =>
    refine addWrappedText_low split 12 false _ _ _ _ ?_ le_rfl
    refine addWrappedText_low split 12 true _ _ _ _ (condPage_low ph 25 st h) ?_
    omega
  | some g =>
    dsimp only
    by_cases hge : g = ""
    · rw [if_pos hge]
      refine addWrappedText_low split 12 false _ _ _ _ ?_ le_rfl
      refine addWrappedText_low split 12 true _ _ _ _ (condPage_low ph 25 st h) ?_
      omega
    · rw [if_neg hge]
      refine addWrappedText_low split 12 false _ _ _ _ ?_ le_rfl
      refine addWrappedText_low split 12 false _ _ _ _ ?_ le_rfl
      refine addWrappedText_low split 12 true _ _ _ _ (condPage_low ph 25 st h) ?_
      omega

theorem projEntry_low (pw ph : ℤ) (split : String → ℤ → List String) (st : RState)
    (p : Project) (h : RAll (fun c => 20 ≤ c.y) st ∧ 20 ≤ st.y) :
    RAll (fun c => 20 ≤ c.y) (projEntry pw ph split st p) ∧
      20 ≤ (projEntry pw ph split st p).y := by
  simp only [projEntry]
  refine addWrappedText_low split 12 false _ _ _ _ ?_ le_rfl
  refine addWrappedText_low split 12 true _ _ _ _ (condPage_low ph 40 st h) ?_
  omega

theorem resumeMain_low (pw ph : ℤ) (split : String → ℤ → List String)
    (r : GeneratedResume) :
    RAll (fun c => 20 ≤ c.y) (resumeMain pw ph split r) ∧
      20 ≤ (resumeMain pw ph split r).y := by
  simp only [resumeMain]
  refine foldl_inv (fun st => RAll (fun c => 20 ≤ c.y) st ∧ 20 ≤ st.y)
    (projEntry pw ph split) (projEntry_low pw ph split) _ _ ?_
  refine addWrappedText_low split 14 true _ _ _ _ (condPage_low ph 30 _ ?_) (by omega)
  refine addWrappedText_low split 12 false _ _ _ _ ?_ (by omega)
  refine addWrappedText_low split 12 false _ _ _ _ ?_ (by omega)
  refine addWrappedText_low split 14 true _ _ _ _ (condPage_low ph 30 _ ?_) (by omega)
  refine foldl_inv (fun st => RAll (fun c => 20 ≤ c.y) st ∧ 20 ≤ st.y)
    (eduEntry pw ph split) (eduEntry_low pw ph split) _ _ ?_
  refine addWrappedText_low split 14 true _ _ _ _ (condPage_low ph 30 _ ?_) (by omega)
  refine foldl_inv (fun st => RAll (fun c => 20 ≤ c.y) st ∧ 20 ≤ st.y)
    (expEntry pw ph split) (expEntry_low pw ph split) _ _ ?_
  refine addWrappedText_low split 14 true _ _ _ _ ?_ (by omega)
  refine addWrappedText_low split 12 true _ _ _ _ ?_ (by omega)
  refine addWrappedText_low split 24 true _ _ _ _ ?_ le_rfl
  refine ⟨⟨?_, ?_⟩, le_refl 20⟩ <;> intro x hx <;> simp at hx

theorem addWrappedText_mono (split : String → ℤ → List String) (fs : ℕ) (b : Bool)
    (text : String) (y w : ℤ) (st : RState) (h : RMono st) (hy : st.y ≤ y) :
    RMono (addWrappedText split fs b text y w st) := by
  obtain ⟨hdone, hcur, hlt⟩ := h
  simp only [addWrappedText]
  refine ⟨hdone, ?_, ?_⟩
  · dsimp only
    rw [List.pairwise_append]
    refine ⟨hcur, textLines_pairwise _ _ _ _ _ _, ?_⟩
    intro a ha c hc
    have h2 := (textLines_bounds _ _ _ _ _ _ c hc).1
    have := hlt a ha
    simp only [yLT]
    omega
  · dsimp only
    intro c hc
    rcases List.mem_append.1 hc with h' | h'
    · have := hlt c h'
      omega
    · have := (textLines_bounds _ _ _ _ _ _ c h').2
      omega

theorem addNewPage_mono (st : RState) (h : RMono st) : RMono (addNewPage st) := by
  obtain ⟨hdone, hcur, _⟩ := h
  refine ⟨?_, List.Pairwise.nil, ?_⟩
  · intro p hp
    rcases List.mem_append.1 hp with h' | h'
    · exact hdone p h'
    · rcases List.mem_singleton.1 h' with rfl
      exact hcur
  · intro c hc
    simp [addNewPage] at hc

theorem condPage_mono (ph hgt : ℤ) (st : RState) (h : RMono st) :
    RMono (condPage ph hgt st) := by
  unfold condPage
  split
  · exact h
  · exact addNewPage_mono st h

theorem expEntry_mono (pw ph : ℤ) (split : String → ℤ → List String) (st : RState)
    (e : Experience) (h : RMono st) : RMono (expEntry pw ph split st e) := by
  simp only [expEntry]
  refine foldl_inv RMono _ ?_ _ _ ?_
  · intro st d hd
    exact addWrappedText_mono split 12 false _ _ _ _ (condPage_mono ph (7 * 2) st hd)
      (by omega)
  · refine addWrappedText_mono split 12 false _ _ _ _ ?_ le_rfl
    exact addWrappedText_mono split 12 true _ _ _ _ (condPage_mono ph 40 st h) (by omega)

theorem eduEntry_mono (pw ph : ℤ) (split : String → ℤ → List String) (st : RState)
    (e : Education) (h : RMono st) : RMono (eduEntry pw ph split st e) := by
  simp only [eduEntry]
  cases hgpa : e.gpa with
  | none =>
    refine addWrappedText_mono split 12 false _ _ _ _ ?_ le_rfl
    exact addWrappedText_mono split 12 true _ _ _ _ (condPage_mono ph 25 st h) (by omega)
  | some g =>
    dsimp only
    by_cases hge : g = ""
    · rw [if_pos hge]
      refine addWrappedText_mono split 12 false _ _ _ _ ?_ le_rfl
      exact addWrappedText_mono split 12 true _ _ _ _ (condPage_mono ph 25 st h) (by omega)
    · rw [if_neg hge]
      refine addWrappedText_mono split 12 false _ _ _ _ ?_ le_rfl
      refine addWrappedText_mono split 12 false _ _ _ _ ?_ le_rfl
      exact addWrappedText_mono split 12 true _ _ _ _ (condPage_mono ph 25 st h) (by omega)

theorem projEntry_mono (pw ph : ℤ) (split : String → ℤ → List String) (st : RState)
    (p : Project) (h : RMono st) : RMono (projEntry pw ph split st p) := by
  simp only [projEntry]
  refine addWrappedText_mono split 12 false _ _ _ _ ?_ le_rfl
  exact addWrappedText_mono split 12 true _ _ _ _ (condPage_mono ph 40 st h) (by omega)

theorem resumeMain_mono (pw ph : ℤ) (split : String → ℤ → List String)
    (r : GeneratedResume) : RMono (resumeMain pw ph split r) := by
  simp only [resumeMain]
  refine foldl_inv RMono (projEntry pw ph split) (projEntry_mono pw ph split) _ _ ?_
  refine addWrappedText_mono split 14 true _ _ _ _ (condPage_mono ph 30 _ ?_) (by omega)
  refine addWrappedText_mono split 12 false _ _ _ _ ?_ (by omega)
  refine addWrappedText_mono split 12 false _ _ _ _ ?_ (by omega)
  refine addWrappedText_mono split 14 true _ _ _ _ (condPage_mono ph 30 _ ?_) (by omega)
  refine foldl_inv RMono (eduEntry pw ph split) (eduEntry_mono pw ph split) _ _ ?_
  refine addWrappedText_mono split 14 true _ _ _ _ (condPage_mono ph 30 _ ?_) (by omega)
  refine foldl_inv RMono (expEntry pw ph split) (expEntry_mono pw ph split) _ _ ?_
  refine addWrappedText_mono split 14 true _ _ _ _ ?_ (by omega)
  refine addWrappedText_mono split 12 true _ _ _ _ ?_ (by omega)
  refine addWrappedText_mono split 24 true _ _ _ _ ?_ le_rfl
  refine ⟨?_, List.Pairwise.nil, ?_⟩ <;> intro x hx <;> simp at hx

theorem addWrappedText_all (Q : Cmd → Prop) (split : String → ℤ → List String) (fs : ℕ)
    (b : Bool) (text : String) (y w : ℤ) (st : RState) (h : RAll Q st)
    (hnew : ∀ c ∈ textLines (split text w) 20 y 7 fs b none, Q c) :
    RAll Q (addWrappedText split fs b text y w st) := by
  obtain ⟨hdone, hcur⟩ := h
  simp only [addWrappedText]
  refine ⟨hdone, ?_⟩
  dsimp only
  intro c hc
  rcases List.mem_append.1 hc with h' | h'
  · exact hcur c h'
  · exact hnew c h'

theorem addNewPage_all (Q : Cmd → Prop) (st : RState) (h : RAll Q st) :
    RAll Q (addNewPage st) := by
  obtain ⟨hdone, hcur⟩ := h
  refine ⟨?_, ?_⟩
  · intro p hp
    rcases List.mem_append.1 hp with h' | h'
    · exact hdone p h'
    · rcases List.mem_singleton.1 h' with rfl
      exact hcur
  · intro c hc
    simp [addNewPage] at hc

theorem condPage_all (Q : Cmd → Prop) (ph hgt : ℤ) (st : RState) (h : RAll Q st) :
    RAll Q (condPage ph hgt st) := by
  unfold condPage
  split
  · exact h
  · exact addNewPage_all Q st h

theorem condPage_y (ph hgt : ℤ) (st : RState) :
    (condPage ph hgt st).y + hgt ≤ ph - 20 ∨ (condPage ph hgt st).y = 20 := by
  unfold condPage
  split
  · next hfit => exact Or.inl hfit
  · exact Or.inr rfl

theorem expEntry_all (Q : Cmd → Prop) (pw ph : ℤ) (split : String → ℤ → List String)
    (hQ12 : ∀ c : Cmd, c.fontSize = 12 → Q c) :
    ∀ (st : RState) (e : Experience), RAll Q st → RAll Q (expEntry pw ph split st e) := by
  intro st e h
  simp only [expEntry]
  refine foldl_inv (RAll Q) _ ?_ _ _ ?_
  · intro st d hd
    exact addWrappedText_all Q split 12 false _ _ _ _ (condPage_all Q ph (7 * 2) st hd)
      (fun c hc => hQ12 c (textLines_fontSize _ _ _ _ _ _ _ c hc))
  · refine addWrappedText_all Q split 12 false _ _ _ _ ?_
      (fun c hc => hQ12 c (textLines_fontSize _ _ _ _ _ _ _ c hc))
    exact addWrappedText_all Q split 12 true _ _ _ _ (condPage_all Q ph 40 st h)
      (fun c hc => hQ12 c (textLines_fontSize _ _ _ _ _ _ _ c hc))

theorem eduEntry_all (Q : Cmd → Prop) (pw ph : ℤ) (split : String → ℤ → List String)
    (hQ12 : ∀ c : Cmd, c.fontSize = 12 → Q c) :
    ∀ (st : RState) (e : Education), RAll Q st → RAll Q (eduEntry pw ph split st e) := by
  intro st e h
  simp only [eduEntry]
  cases hgpa : e.gpa with
  | none =>
    refine addWrappedText_all Q split 12 false _ _ _ _ ?_
      (fun c hc => hQ12 c (textLines_fontSize _ _ _ _ _ _ _ c hc))
    exact addWrappedText_all Q split 12 true _ _ _ _ (condPage_all Q ph 25 st h)
      (fun c hc => hQ12 c (textLines_fontSize _ _ _ _ _ _ _ c hc))
  | some g =>
    dsimp only
    by_cases hge : g = ""
    · rw [if_pos hge]
      refine addWrappedText_all Q split 12 false _ _ _ _ ?_
        (fun c hc => hQ12 c (textLines_fontSize _ _ _ _ _ _ _ c hc))
      exact addWrappedText_all Q split 12 true _ _ _ _ (condPage_all Q ph 25 st h)
        (fun c hc => hQ12 c (textLines_fontSize _ _ _ _ _ _ _ c hc))
    · rw [if_neg hge]
      refine addWrappedText_all Q split 12 false _ _ _ _ ?_
        (fun c hc => hQ12 c (textLines_fontSize _ _ _ _ _ _ _ c hc))
      refine addWrappedText_all Q split 12 false _ _ _ _ ?_
        (fun c hc => hQ12 c (textLines_fontSize _ _ _ _ _ _ _ c hc))
      exact addWrappedText_all Q split 12 true _ _ _ _ (condPage_all Q ph 25 st h)
        (fun c hc => hQ12 c (textLines_fontSize _ _ _ _ _ _ _ c hc))

theorem projEntry_all (Q : Cmd → Prop) (pw ph : ℤ) (split : String → ℤ → List String)
    (hQ12 : ∀ c : Cmd, c.fontSize = 12 → Q c) :
    ∀ (st : RState) (p : Project), RAll Q st → RAll Q (projEntry pw ph split st p) := by
  intro st p h
  simp only [projEntry]
  refine addWrappedText_all Q split 12 false _ _ _ _ ?_
    (fun c hc => hQ12 c (textLines_fontSize _ _ _ _ _ _ _ c hc))
  exact addWrappedText_all Q split 12 true _ _ _ _ (condPage_all Q ph 40 st h)
    (fun c hc => hQ12 c (textLines_fontSize _ _ _ _ _ _ _ c hc))

/-! ## Assembly lemmas: whole-renderer facts -/

theorem overallPage_texts (pw : ℤ) (split : String → ℤ → List String)
    (a : InterviewAnalysis) :
    (overallPage pw split a).map Cmd.text =
      "Overall Analysis" :: split a.overallAnalysis (pw - 40) := by
  simp [overallPage, textLines_map_text]

theorem interviewMain_texts (pw ph : ℤ) (split : String → ℤ → List String)
    (a : InterviewAnalysis) :
    textsOfI (interviewMain pw ph split a) =
      "Interview Analysis Report" :: "Question-by-Question Analysis" ::
        allQATexts pw split a.questionAnalysis 0 := by
  unfold interviewMain
  rw [interviewLoop_texts]
  simp [textsOfI]

theorem interviewCore_texts (pw ph : ℤ) (split : String → ℤ → List String)
    (a : InterviewAnalysis) :
    (interviewCore pw ph split a).flatten.map Cmd.text = interviewTexts pw split a := by
  have hmain := interviewMain_texts pw ph split a
  simp only [textsOfI] at hmain
  simp only [interviewCore, List.flatten_append, List.flatten_cons, List.flatten_nil,
    List.append_nil, List.map_append, interviewTexts]
  rw [← List.map_append, hmain, overallPage_texts]
  simp

theorem resumeCore_texts (pw ph : ℤ) (split : String → ℤ → List String)
    (r : GeneratedResume) :
    (resumeCore pw ph split r).flatten.map Cmd.text = resumeTexts pw split r := by
  have hmain := resumeMain_texts pw ph split r
  simp only [textsOfR] at hmain
  simp only [resumeCore, List.flatten_append, List.flatten_cons, List.flatten_nil,
    List.append_nil]
  exact hmain

theorem interviewCore_low (pw ph : ℤ) (split : String → ℤ → List String)
    (a : InterviewAnalysis) :
    ∀ p ∈ interviewCore pw ph split a, ∀ c ∈ p, 20 ≤ c.y := by
  have hinit : IAll (fun c => 20 ≤ c.y)
      (⟨[], [⟨"Interview Analysis Report", pw / 2, 20, 20, false, none⟩,
             ⟨"Question-by-Question Analysis", 20, 34, 16, false, none⟩], 48⟩ : IState) := by
    constructor
    · intro p hp; simp at hp
    · intro c hc
      rcases List.mem_cons.1 hc with rfl | hc'
      · dsimp only; omega
      · rcases List.mem_singleton.1 hc' with rfl
        simp
  have hloop := interviewLoop_low pw ph split a.questionAnalysis 0 _ hinit
    (by dsimp only; omega)
  intro p hp
  simp only [interviewCore, List.mem_append, List.mem_singleton] at hp
  rcases hp with (hp | rfl) | rfl
  · exact hloop.1.1 p hp
  · exact hloop.1.2
  · intro c hc
    rcases List.mem_cons.1 hc with rfl | hc'
    · dsimp only; omega
    · have := (textLines_bounds _ _ _ _ _ _ c hc').1
      omega

theorem resumeCore_low (pw ph : ℤ) (split : String → ℤ → List String)
    (r : GeneratedResume) :
    ∀ p ∈ resumeCore pw ph split r, ∀ c ∈ p, 20 ≤ c.y := by
  have hmain := resumeMain_low pw ph split r
  intro p hp
  simp only [resumeCore, List.mem_append, List.mem_singleton] at hp
  rcases hp with hp | rfl
  · exact hmain.1.1 p hp
  · exact hmain.1.2

theorem interviewCore_pairwise (pw ph : ℤ) (split : String → ℤ → List String)
    (a : InterviewAnalysis) :
    ∀ p ∈ interviewCore pw ph split a, p.Pairwise yLT := by
  have hinit : IMono
      (⟨[], [⟨"Interview Analysis Report", pw / 2, 20, 20, false, none⟩,
             ⟨"Question-by-Question Analysis", 20, 34, 16, false, none⟩], 48⟩ : IState) := by
    refine ⟨?_, ?_, ?_⟩
    · intro p hp; simp at hp
    · refine List.Pairwise.cons ?_ (List.Pairwise.cons ?_ List.Pairwise.nil)
      · intro c hc
        rcases List.mem_singleton.1 hc with rfl
        simp [yLT]
      · intro c hc; simp at hc
    · intro c hc
      rcases List.mem_cons.1 hc with rfl | hc'
      · simp
      · rcases List.mem_singleton.1 hc' with rfl
        simp
  have hloop := interviewLoop_mono pw ph split a.questionAnalysis 0 _ hinit
  intro p hp
  simp only [interviewCore, List.mem_append, List.mem_singleton] at hp
  rcases hp with (hp | rfl) | rfl
  · exact hloop.1 p hp
  · exact hloop.2.1
  · refine List.Pairwise.cons ?_ (textLines_pairwise _ _ _ _ _ _)
    intro c hc
    have := (textLines_bounds _ _ _ _ _ _ c hc).1
    simp only [yLT]
    omega

theorem resumeCore_pairwise (pw ph : ℤ) (split : String → ℤ → List String)
    (r : GeneratedResume) :
    ∀ p ∈ resumeCore pw ph split r, p.Pairwise yLT := by
  have hmain := resumeMain_mono pw ph split r
  intro p hp
  simp only [resumeCore, List.mem_append, List.mem_singleton] at hp
  rcases hp with hp | rfl
  · exact hmain.1 p hp
  · exact hmain.2.1

/-! ## Claims -/

/-- C1, counterexample: the no-clipping invariant fails as stated.  With
four short question entries the interview renderer walks the cursor from
48 past the bottom boundary 277 inside the loop (the overflow check runs
only once per entry, before it), so the fourth entry's lines are drawn at
y up to 307 > pageHeight - margin = 277. -/
theorem C1_counterexample :
    ∃ p ∈ generateInterviewPDF oneLineSplit cexAnalysis4,
      ∃ c ∈ p, ¬(c.y ≤ 297 - 20) := by
  decide

/-- C1, amended: the overflow check is performed once per entry (not once
per wrapped line), so a drawn line's `y` can exceed `pageHeight - margin`
(see the counterexample); what does hold for every drawn line of both
renderers is the lower bound `margin ≤ y`. -/
theorem C1_lower_bound :
    ∀ (split : String → ℤ → List String) (a : InterviewAnalysis) (r : GeneratedResume),
      (∀ p ∈ generateInterviewPDF split a, ∀ c ∈ p, 20 ≤ c.y) ∧
      (∀ p ∈ generatePDF split r, ∀ c ∈ p, 20 ≤ c.y) :=
  fun split a r => ⟨interviewCore_low 210 297 split a, resumeCore_low 210 297 split r⟩

/-- C2, confirmed: concatenating the drawn texts of all pages in page
order, top-to-bottom within each page, reproduces the input texts in
input order (headings and labels interleaved, blocks replaced by their
wrapped lines).  Top-to-bottom order within a page coincides with
emission order because every page is strictly increasing in `y`. -/
theorem C2_reading_order :
    ∀ (split : String → ℤ → List String) (a : InterviewAnalysis) (r : GeneratedResume),
      ((generateInterviewPDF split a).flatten.map Cmd.text = interviewTexts 210 split a ∧
        ∀ p ∈ generateInterviewPDF split a, p.Pairwise yLT) ∧
      ((generatePDF split r).flatten.map Cmd.text = resumeTexts 210 split r ∧
        ∀ p ∈ generatePDF split r, p.Pairwise yLT) :=
  fun split a r =>
    ⟨⟨interviewCore_texts 210 297 split a, interviewCore_pairwise 210 297 split a⟩,
     ⟨resumeCore_texts 210 297 split r, resumeCore_pairwise 210 297 split r⟩⟩

/-- C3, counterexample: no configuration error exists.  With pageHeight 0
(non-positive) or pageHeight 30 (margin 20 exceeds half the page) the
interview renderer still produces its two pages — nothing is rejected and
pages are produced. -/
theorem C3_counterexample :
    interviewCore 210 0 oneLineSplit emptyAnalysis ≠ [] ∧
      (interviewCore 210 0 oneLineSplit emptyAnalysis).length = 2 ∧
      (interviewCore 210 30 oneLineSplit emptyAnalysis).length = 2 := by
  decide

/-- C3, amended: the renderers never validate geometry (page size comes
from the hard-coded A4 setup, the margin is the constant 20): for every
geometry, valid or degenerate, rendering completes and produces pages —
at least two for the interview report and at least one for the resume —
so there is indeed no partial-success state, but there is no rejection
either. -/
theorem C3_no_validation :
    ∀ (pw ph : ℤ) (split : String → ℤ → List String) (a : InterviewAnalysis)
      (r : GeneratedResume),
      2 ≤ (interviewCore pw ph split a).length ∧
        1 ≤ (resumeCore pw ph split r).length := by
  intro pw ph split a r
  constructor
  · simp only [interviewCore, List.length_append, List.length_singleton]
    omega
  · simp only [resumeCore, List.length_append, List.length_singleton]
    omega

/-- C8, confirmed: both renderers are pure functions of the document and
the injected text metrics — the embedding takes no randomness or clock
input because the source reads none — so two renders of the same input
are identical in page count, texts and line positions. -/
theorem C8_deterministic :
    ∀ (split : String → ℤ → List String) (a : InterviewAnalysis) (r : GeneratedResume),
      generateInterviewPDF split a = generateInterviewPDF split a ∧
      generatePDF split r = generatePDF split r :=
  fun _ _ _ => ⟨rfl, rfl⟩

set_option maxRecDepth 8000 in
/-- C4, counterexample: the EXPERIENCE heading has no pre-title space
check.  With a summary wrapping to 36 lines the heading is drawn at
y = 299 > pageHeight - margin = 277 as the last line of page 1, while the
experience entry that follows it lands on page 2 — an orphaned (and even
clipped) section title. -/
theorem C4_counterexample :
    (generatePDF newlineSplit cexResumeC4).length = 2 ∧
      ((generatePDF newlineSplit cexResumeC4).head!.getLast!).text = "EXPERIENCE" ∧
      ((generatePDF newlineSplit cexResumeC4).head!.getLast!).y = 299 ∧
      ¬(((generatePDF newlineSplit cexResumeC4).head!.getLast!).y ≤ 297 - 20) ∧
      (generatePDF newlineSplit cexResumeC4)[1]! ≠ [] := by
  decide

/-- C4, amended: pre-title space checks exist only for the EDUCATION,
SKILLS and PROJECTS headings (`willContentFit(30)`, one title line plus
a lookahead), and are absent for the EXPERIENCE heading; whenever a
checked heading wraps to a single line it is drawn at
`y ≤ pageHeight - margin - 20`, leaving at least 20 units — room for the
title advance and one body line — above the bottom boundary, while the
EXPERIENCE heading enjoys no such bound (see the counterexample). -/
theorem C4_checked_headings :
    ∀ (split : String → ℤ → List String) (r : GeneratedResume),
      split "EXPERIENCE" (210 - 2 * 20) = ["EXPERIENCE"] →
      split "EDUCATION" (210 - 2 * 20) = ["EDUCATION"] →
      split "SKILLS" (210 - 2 * 20) = ["SKILLS"] →
      split "PROJECTS" (210 - 2 * 20) = ["PROJECTS"] →
      ∀ p ∈ generatePDF split r, ∀ c ∈ p, c.fontSize = 14 →
        c.text = "EXPERIENCE" ∨ c.y ≤ 297 - 20 - 20 := by
  intro split r hE hD hS hP
  have hQ12 : ∀ c : Cmd, c.fontSize = 12 →
      (c.fontSize = 14 → c.text = "EXPERIENCE" ∨ c.y ≤ 257) := by
    intro c h12 h14
    omega
  have hQ24 : ∀ c ∈ textLines (split r.name (210 - 2 * 20)) 20 20 7 24 true none,
      c.fontSize = 14 → c.text = "EXPERIENCE" ∨ c.y ≤ 257 := by
    intro c hc h14
    have := textLines_fontSize _ _ _ _ _ _ _ c hc
    omega
  have hheading : ∀ (T : String) (st : RState) (hgt : ℤ),
      split T (210 - 2 * 20) = [T] →
      ∀ c ∈ textLines (split T (210 - 2 * 20)) 20 ((condPage 297 30 st).y + 10) 7 14 true none,
        c.fontSize = 14 → c.text = "EXPERIENCE" ∨ c.y ≤ 257 := by
    intro T st hgt hT c hc _
    rw [hT] at hc
    simp only [textLines, List.mem_singleton] at hc
    rcases hc with rfl
    rcases condPage_y 297 30 st with h' | h'
    · right; dsimp only; omega
    · right; dsimp only; omega
  have hmain : RAll (fun c => c.fontSize = 14 → c.text = "EXPERIENCE" ∨ c.y ≤ 257)
      (resumeMain 210 297 split r) := by
    simp only [resumeMain]
    refine foldl_inv _ (projEntry 210 297 split)
      (projEntry_all _ 210 297 split hQ12) _ _ ?_
    refine addWrappedText_all _ split 14 true "PROJECTS" _ _ _
      (condPage_all _ 297 30 _ ?_) (hheading "PROJECTS" _ 30 hP)
    refine addWrappedText_all _ split 12 false _ _ _ _ ?_
      (fun c hc => hQ12 c (textLines_fontSize _ _ _ _ _ _ _ c hc))
    refine addWrappedText_all _ split 12 false _ _ _ _ ?_
      (fun c hc => hQ12 c (textLines_fontSize _ _ _ _ _ _ _ c hc))
    refine addWrappedText_all _ split 14 true "SKILLS" _ _ _
      (condPage_all _ 297 30 _ ?_) (hheading "SKILLS" _ 30 hS)
    refine foldl_inv _ (eduEntry 210 297 split)
      (eduEntry_all _ 210 297 split hQ12) _ _ ?_
    refine addWrappedText_all _ split 14 true "EDUCATION" _ _ _
      (condPage_all _ 297 30 _ ?_) (hheading "EDUCATION" _ 30 hD)
    refine foldl_inv _ (expEntry 210 297 split)
      (expEntry_all _ 210 297 split hQ12) _ _ ?_
    refine addWrappedText_all _ split 14 true "EXPERIENCE" _ _ _ ?_ ?_
    · refine addWrappedText_all _ split 12 true _ _ _ _ ?_
        (fun c hc => hQ12 c (textLines_fontSize _ _ _ _ _ _ _ c hc))
      refine addWrappedText_all _ split 24 true _ _ _ _ ?_ hQ24
      refine ⟨?_, ?_⟩ <;> intro x hx <;> simp at hx
    · intro c hc _
      rw [hE] at hc
      simp only [textLines, List.mem_singleton] at hc
      rcases hc with rfl
      exact Or.inl rfl
  intro p hp c hc h14
  have : c.text = "EXPERIENCE" ∨ c.y ≤ 257 := by
    simp only [generatePDF, resumeCore, List.mem_append, List.mem_singleton] at hp
    rcases hp with hp | rfl
    · exact hmain.1 p hp c hc h14
    · exact hmain.2 c hc h14
  rcases this with h' | h'
  · exact Or.inl h'
  · right; omega

/-- C4, witness: the amended heading bound instantiated at the one-line
metrics and the empty resume. -/
theorem C4_checked_headings_witness :
    oneLineSplit "EXPERIENCE" (210 - 2 * 20) = ["EXPERIENCE"] ∧
    oneLineSplit "EDUCATION" (210 - 2 * 20) = ["EDUCATION"] ∧
    oneLineSplit "SKILLS" (210 - 2 * 20) = ["SKILLS"] ∧
    oneLineSplit "PROJECTS" (210 - 2 * 20) = ["PROJECTS"] ∧
    ∀ p ∈ generatePDF oneLineSplit emptyResume, ∀ c ∈ p, c.fontSize = 14 →
      c.text = "EXPERIENCE" ∨ c.y ≤ 297 - 20 - 20 :=
  ⟨rfl, rfl, rfl, rfl, C4_checked_headings oneLineSplit emptyResume rfl rfl rfl rfl⟩

/-- C5, counterexample: a missing skills field is not treated as an empty
string.  Rendering `emptyResume` (whose `skills.technical` is absent)
draws the placeholder line "Technical: No technical skills listed", and no
drawn line is the empty-string rendering "Technical: ". -/
theorem C5_counterexample :
    (∃ c ∈ (generatePDF oneLineSplit emptyResume).flatten,
        c.text = "Technical: No technical skills listed") ∧
      ∀ c ∈ (generatePDF oneLineSplit emptyResume).flatten,
        c.text ≠ "Technical: " := by
  decide

/-- C5, amended: rendering is a total function of its input (it cannot
raise), and a missing or absent skills field is defensively replaced by
the placeholder string "No technical skills listed" (resp. soft), not by
an empty string: the drawn line is "Technical: No technical skills
listed". -/
theorem C5_missing_skills_placeholder :
    ∀ (split : String → ℤ → List String) (r : GeneratedResume),
      r.technical = SkillField.missing →
      split "Technical: No technical skills listed" (210 - 2 * 20) =
        ["Technical: No technical skills listed"] →
      "Technical: No technical skills listed" ∈
        (generatePDF split r).flatten.map Cmd.text := by
  intro split r hmiss hsplit
  have hcat : "Technical: " ++ "No technical skills listed" =
      "Technical: No technical skills listed" := rfl
  show "Technical: No technical skills listed" ∈
    (resumeCore 210 297 split r).flatten.map Cmd.text
  rw [resumeCore_texts]
  simp only [resumeTexts, hmiss, skillFieldText, hcat, hsplit, List.mem_append,
    List.mem_singleton]
  tauto

/-- C5, witness: the placeholder fact instantiated at the one-line metrics
and the empty resume. -/
theorem C5_missing_skills_placeholder_witness :
    emptyResume.technical = SkillField.missing ∧
    oneLineSplit "Technical: No technical skills listed" (210 - 2 * 20) =
      ["Technical: No technical skills listed"] ∧
    "Technical: No technical skills listed" ∈
      (generatePDF oneLineSplit emptyResume).flatten.map Cmd.text :=
  ⟨rfl, rfl, C5_missing_skills_placeholder oneLineSplit emptyResume rfl rfl⟩

/-- C6, counterexample: rendering the empty interview document does not
return one empty page: it returns two pages (title page and the
unconditional overall-analysis page), both non-empty. -/
theorem C6_counterexample :
    ¬((generateInterviewPDF oneLineSplit emptyAnalysis).length = 1 ∧
        ∀ p ∈ generateInterviewPDF oneLineSplit emptyAnalysis, p = []) := by
  decide

/-- C6, amended: an empty document crashes nothing and yields no null
pages, but the page count is not one-empty-page: the interview renderer
always returns exactly two pages for an empty question list (the fixed
headings page and the overall-analysis page), and the resume renderer
returns one page carrying the name/summary lines and the fixed section
headings. -/
theorem C6_empty_document :
    (∀ (split : String → ℤ → List String) (ov : String),
        (generateInterviewPDF split (InterviewAnalysis.mk [] ov)).length = 2) ∧
      (generatePDF oneLineSplit emptyResume).length = 1 ∧
      (generatePDF oneLineSplit emptyResume).head! ≠ [] := by
  refine ⟨fun split ov => rfl, by decide, by decide⟩

/-- C7, counterexample: the inter-block gap is not half a line height.
Two consecutive one-line description blocks are drawn 12 units apart —
one line height (7) plus the fixed 5-unit gap — where the claim's
half-line-height gap would put them 10.5 apart (doubled: 21 ≠ 24). -/
theorem C7_counterexample :
    ((generatePDF oneLineSplit cexResumeC7).head!)[5]!.text = "â€¢ d1" ∧
      ((generatePDF oneLineSplit cexResumeC7).head!)[6]!.text = "â€¢ d2" ∧
      ((generatePDF oneLineSplit cexResumeC7).head!)[6]!.y =
        ((generatePDF oneLineSplit cexResumeC7).head!)[5]!.y + 12 ∧
      2 * ((generatePDF oneLineSplit cexResumeC7).head!)[6]!.y ≠
        2 * ((generatePDF oneLineSplit cexResumeC7).head!)[5]!.y + 21 := by
  decide

/-- C7, amended: after finishing a block the cursor advances past the
block's wrapped lines by a fixed gap that is not half a line height: 5
units in the resume renderer (each following block starts at
`yPos + 5`), one full line height after an interview answer block (the
"Feedback:" label sits at `y + 35 + 7n`, i.e. `lineHeight * (n + 1)` past
the answer start) and two line heights after a feedback block (the next
entry starts at `y + 56 + 7n + 7m`). -/
theorem C7_inter_block_gap :
    (∀ (pw : ℤ) (split : String → ℤ → List String) (idx : ℕ) (qa : QA) (y : ℤ),
      ((qaCmds pw split idx qa y).1)[(split qa.answer (pw - 20 * 2)).length + 3]? =
        some ⟨"Feedback:", 20,
          y + 35 + 7 * ((split qa.answer (pw - 20 * 2)).length : ℤ), 14, false, some idx⟩ ∧
      (qaCmds pw split idx qa y).2 =
        y + 56 + 7 * ((split qa.answer (pw - 20 * 2)).length : ℤ) +
          7 * ((split qa.feedback (pw - 20 * 2)).length : ℤ)) ∧
    ((generatePDF oneLineSplit cexResumeC7).head!)[6]!.y =
      ((generatePDF oneLineSplit cexResumeC7).head!)[5]!.y + 7 + 5 := by
  constructor
  · intro pw split idx qa y
    refine ⟨?_, qaCmds_snd pw split idx qa y⟩
    simp only [qaCmds]
    rw [← List.cons_append, ← List.cons_append, ← List.cons_append,
      List.getElem?_append_right (by simp [textLines_length])]
    simp only [List.length_cons, textLines_length]
    have hidx : (split qa.answer (pw - 20 * 2)).length + 3 -
        ((split qa.answer (pw - 20 * 2)).length + 1 + 1 + 1) = 0 := by omega
    rw [hidx, List.getElem?_cons_zero]
    congr 2
    ring
  · decide

/-- C9, confirmed: the interview renderer evaluates the new-page
condition once per question entry, before the entry's first line, and
never inside it, so all draw commands of one entry land on the same page:
for every text metrics and input, exactly one page carries entry `i` when
`i` indexes a question — regardless of the entry's total height — and no
page does otherwise. -/
theorem C9_entry_single_page :
    ∀ (split : String → ℤ → List String) (a : InterviewAnalysis) (i : ℕ),
      pagesWithEntry i (generateInterviewPDF split a) =
        if i < a.questionAnalysis.length then 1 else 0 := by
  intro split a i
  have hb : ∀ j : ℕ, ((none : Option ℕ) == some j) = false := fun j => rfl
  have hinit : ∀ j, (0 : ℕ) ≤ j → pagesWithEntry j
      (([] : List Page) ++
        [[⟨"Interview Analysis Report", (210 : ℤ) / 2, 20, 20, false, none⟩,
          ⟨"Question-by-Question Analysis", 20, 34, 16, false, none⟩]]) = 0 := by
    intro j _
    rw [List.nil_append, pagesWithEntry_single, if_neg]
    simp [List.any_cons, List.any_nil, hb]
  have hloop := interviewLoop_pagesWith 210 297 split a.questionAnalysis 0
    ⟨[], [⟨"Interview Analysis Report", (210 : ℤ) / 2, 20, 20, false, none⟩,
          ⟨"Question-by-Question Analysis", 20, 34, 16, false, none⟩], 48⟩ hinit i
  have hover : pagesWithEntry i [overallPage 210 split a] = 0 := by
    rw [pagesWithEntry_single, if_neg]
    intro hany
    rw [List.any_eq_true] at hany
    obtain ⟨c, hc, hci⟩ := hany
    rcases List.mem_cons.1 hc with rfl | hc'
    · simp at hci
    · have hce := textLines_entry _ _ _ _ _ _ _ c hc'
      rw [hce] at hci
      simp at hci
  show pagesWithEntry i (interviewCore 210 297 split a) = _
  simp only [interviewCore, interviewMain]
  rw [pagesWithEntry_append, hloop, hover]
  by_cases hlen : i < a.questionAnalysis.length
  · rw [if_pos ⟨Nat.zero_le i, by omega⟩, if_pos hlen]
  · rw [if_neg (by omega), if_neg hlen, hinit i (Nat.zero_le i)]

/-- C10, confirmed: the interview renderer unconditionally starts a new
page before the Overall Analysis section, so the output always has at
least two pages — also for an empty question list — the overall page is
the final page, and its first draw command is the "Overall Analysis"
heading at the top margin (y = margin = 20). -/
theorem C10_overall_last_page :
    ∀ (split : String → ℤ → List String) (a : InterviewAnalysis),
      2 ≤ (generateInterviewPDF split a).length ∧
      (generateInterviewPDF split a).getLast? = some (overallPage 210 split a) ∧
      (overallPage 210 split a).head? =
        some ⟨"Overall Analysis", 20, 20, 16, false, none⟩ := by
  intro split a
  refine ⟨?_, ?_, rfl⟩
  · show 2 ≤ (interviewCore 210 297 split a).length
    simp only [interviewCore, List.length_append, List.length_singleton]
    omega
  · show (interviewCore 210 297 split a).getLast? = _
    simp only [interviewCore]
    rw [List.getLast?_append_cons]
    rfl

end ReadyResume
